import Mathlib

/-
Verification of the attendance-code extraction pipeline of
`src/main.py` (repository `clicker_scrape`).

The Python source is shallowly embedded below:

* the two regular expressions
    thumbnail phase: (?<![a-zA-Z0-9:/.])[A-Z]{2,}(?: [A-Z]{2,})*(?![a-zA-Z0-9:/.])
    video phase:     (?<![a-zA-Z0-9:/.])[A-Z]{2,}(?: [A-Z]{2,})+(?![a-zA-Z0-9:/.])
  and Python's `re.findall` (left-to-right scan, leftmost match, greedy
  quantifiers with backtracking, non-overlapping continuation after each
  match) are embedded as the executable scanner `scanF` below;
* `download_and_process_image` (the thumbnail-phase recognizer, including
  the URL-term false-positive filter and the
  "Insert the following attendance code" fallback heuristic);
* the video-phase recognition block of `extract_attendance_codes`;
* the thread-pool scan over thumbnail descriptors (modelled sequentially;
  the collection order of `as_completed` is unspecified in the source and
  no statement below depends on it);
* the two-phase control flow of `extract_attendance_codes`, including the
  fact that the Python local `found_codes` is first assigned only inside
  the `if image_urls:` branch, so the video phase raises
  `UnboundLocalError` when the thumbnail list was empty.

Texts and codes are `List Char`; Python `set` values are represented as
duplicate-free lists built by membership-checked insertion (`addCode`).
Filesystem persistence (saving thumbnails / code images) and the browser
driver are external side effects with no influence on the returned value,
and are not modelled.
-/

namespace ClickerScrape

/-- `[A-Z]` of the code patterns (ASCII uppercase). -/
def isUpperAZ (c : Char) : Bool := decide ('A' ≤ c) && decide (c ≤ 'Z')

/-- The character class `[a-zA-Z0-9:/.]` used by the lookbehind
`(?<![a-zA-Z0-9:/.])` and the lookahead `(?![a-zA-Z0-9:/.])`. -/
def codeBoundary (c : Char) : Bool :=
  (decide ('a' ≤ c) && decide (c ≤ 'z')) ||
  (decide ('A' ≤ c) && decide (c ≤ 'Z')) ||
  (decide ('0' ≤ c) && decide (c ≤ '9')) ||
  c == ':' || c == '/' || c == '.'

/-- Python `\s` / `str.strip` whitespace (ASCII part; the texts involved
are ASCII). -/
def isSpaceChar (c : Char) : Bool :=
  c == ' ' || c == '\t' || c == '\n' || c == '\r' || c == '\x0b' || c == '\x0c'

/-- Longest prefix of consecutive `[A-Z]` characters, with the remainder:
the greedy behaviour of `[A-Z]{2,}` inside the code patterns. -/
def upperRun : List Char → List Char × List Char
  | [] => ([], [])
  | c :: cs =>
    if isUpperAZ c then
      let p := upperRun cs
      (c :: p.1, p.2)
    else ([], c :: cs)

/-- Greedy expansion of the continuation group `(?: [A-Z]{2,})*`: collect
the maximal chain of further space-separated uppercase runs of length ≥ 2,
returning the words and the remainder.  The fuel argument only bounds the
recursion; each step consumes at least three characters of the remainder,
so `l.length` fuel is always enough. -/
def contWordsF : Nat → List Char → List (List Char) × List Char
  | 0, l => ([], l)
  | _ + 1, [] => ([], [])
  | fuel + 1, c :: cs =>
    if c == ' ' then
      let p := upperRun cs
      if 2 ≤ p.1.length then
        let q := contWordsF fuel p.2
        (p.1 :: q.1, q.2)
      else ([], c :: cs)
    else ([], c :: cs)

/-- Words of a match joined by single spaces (the matched text of
`[A-Z]{2,}(?: [A-Z]{2,})*`). -/
def joinWords : List (List Char) → List Char
  | [] => []
  | w :: ws => w ++ ws.foldr (fun v acc => ' ' :: (v ++ acc)) []

/-- The negative lookahead `(?![a-zA-Z0-9:/.])` at the current position. -/
def lookOK : List Char → Bool
  | [] => true
  | c :: _ => !codeBoundary c

/-- The negative lookbehind `(?<![a-zA-Z0-9:/.])`; `none` is the start of
the text. -/
def prevOK : Option Char → Bool
  | none => true
  | some c => !codeBoundary c

/-- How many words a match must retain when the final lookahead forces the
last greedy word to be dropped: the continuation group needs at least one
iteration under `+` (two words in total), none under `*` (one word). -/
def minWords (plusMode : Bool) : Nat := if plusMode then 2 else 1

/-- `re.findall` of the code pattern over the text.  `plusMode = false` is
the thumbnail-phase pattern (continuation group starred, single-token
matches allowed); `plusMode = true` is the video-phase pattern
(continuation group with `+`, at least two tokens).

At each position whose preceding character passes the lookbehind and which
starts an uppercase run of length ≥ 2, the greedy word chain is collected;
per the regex backtracking discipline, if the final lookahead fails the
last word of the chain is dropped (legal whenever the remaining word count
still satisfies the group's arity, and then the lookahead sees the space
before the dropped word, which always passes); otherwise the scan advances
one character, exactly as `re.findall` advances the match start.  After an
emitted match the scan continues at the first unconsumed character.

The fuel only bounds the recursion: every recursive call consumes at least
one character, so `text.length` fuel is always enough. -/
def scanF (plusMode : Bool) : Nat → Option Char → List Char → List (List Char)
  | 0, _, _ => []
  | _ + 1, _, [] => []
  | fuel + 1, prev, c :: cs =>
    let r := upperRun (c :: cs)
    if prevOK prev && decide (2 ≤ r.1.length) then
      let q := contWordsF r.2.length r.2
      if (!plusMode || !q.1.isEmpty) && lookOK q.2 then
        let m := joinWords (r.1 :: q.1)
        m :: scanF plusMode fuel m.getLast? q.2
      else if minWords plusMode ≤ q.1.length then
        let m := joinWords (r.1 :: q.1.dropLast)
        m :: scanF plusMode fuel m.getLast? (' ' :: (q.1.getLastD [] ++ q.2))
      else
        scanF plusMode fuel (some c) cs
    else
      scanF plusMode fuel (some c) cs

/-- `re.findall(code_pattern, text)`:
line 71 of `src/main.py` with `plusMode = false`,
line 268 with `plusMode = true`. -/
def findMatches (plusMode : Bool) (text : List Char) : List (List Char) :=
  scanF plusMode text.length none text

/-- Characters of a string literal, for concrete texts and codes. -/
def toL (s : String) : List Char := s.toList

/-- Python `str.lower` (ASCII texts). -/
def lowerStr (l : List Char) : List Char := l.map Char.toLower

/-- Boolean `List.isPrefixOf` written out, the building block of the
substring test. -/
def isPre : List Char → List Char → Bool
  | [], _ => true
  | _ :: _, [] => false
  | a :: as, b :: bs => a == b && isPre as bs

/-- Python's substring test `p in l` (also the effect of
`re.search` on an alternation of two literal strings). -/
def containsSub (p : List Char) : List Char → Bool
  | [] => isPre p []
  | c :: cs => isPre p (c :: cs) || containsSub p cs

/-- Line 67 / line 266: `re.search(r'attendance code|clicker question',
text.lower())`. -/
def containsTrigger (text : List Char) : Bool :=
  containsSub (toL "attendance code") (lowerStr text) ||
  containsSub (toL "clicker question") (lowerStr text)

/-- The URL fragments of the false-positive filter (lines 74-77 and
270-273). -/
def urlTerms : List (List Char) := [toL "http", toL "www", toL "join", toL "com"]

/-- A match is a false positive when its lowercase form contains one of
the URL fragments. -/
def isFalsePositive (m : List Char) : Bool :=
  urlTerms.any (fun t => containsSub t (lowerStr m))

/-- Thumbnail-phase primary matches after the false-positive filter
(lines 71-77). -/
def filteredThumb (text : List Char) : List (List Char) :=
  (findMatches false text).filter (fun m => !isFalsePositive m)

/-- Video-phase primary matches after the false-positive filter
(lines 268-273). -/
def filteredVideo (text : List Char) : List (List Char) :=
  (findMatches true text).filter (fun m => !isFalsePositive m)

/-- The literal phrase of the fallback heuristic (line 89). -/
def promptPhrase : List Char := toL "Insert the following attendance code"

/-- Split around the first occurrence of `p`: `some (pre, post)` with
`l = pre ++ p ++ post` when `p` occurs in `l`, else `none`.  Both
Python's `p in text` test and the first two fields of `text.split(p)`
are expressed with it. -/
def splitFirst (p : List Char) : List Char → Option (List Char × List Char)
  | [] => if p.isEmpty then some ([], []) else none
  | c :: cs =>
    if isPre p (c :: cs) then some ([], (c :: cs).drop p.length)
    else
      match splitFirst p cs with
      | some pr => some (c :: pr.1, pr.2)
      | none => none

/-- Python `str.split('\n')`. -/
def splitLines : List Char → List (List Char)
  | [] => [[]]
  | c :: cs =>
    if c == '\n' then [] :: splitLines cs
    else
      match splitLines cs with
      | [] => [[c]]
      | l :: ls => (c :: l) :: ls

/-- Python `str.strip()`. -/
def stripChars (l : List Char) : List Char :=
  ((l.dropWhile isSpaceChar).reverse.dropWhile isSpaceChar).reverse

/-- Line 94: `re.match(r'^[A-Z\s]+$', line.strip()) and len(line.strip()) > 3`. -/
def fallbackLineOK (line : List Char) : Bool :=
  let s := stripChars line
  !s.isEmpty && s.all (fun c => isUpperAZ c || isSpaceChar c) && decide (3 < s.length)

/-- Lines 88-100, the fallback heuristic: `text.split(phrase)[1]` (the
segment between the first occurrence of the phrase and the next one, or
everything after the first occurrence when it is unique), split into
lines; the first of the first five lines passing `fallbackLineOK` yields
the single code `line.strip()`. -/
def fallbackCode (text : List Char) : Option (List Char) :=
  match splitFirst promptPhrase text with
  | none => none
  | some pr =>
    let seg :=
      match splitFirst promptPhrase pr.2 with
      | some pr2 => pr2.1
      | none => pr.2
    (((splitLines seg).take 5).find? fallbackLineOK).map stripChars

/-- The codes produced from one OCR text in the thumbnail phase
(lines 67-102 of `download_and_process_image`): trigger check, primary
pattern, false-positive filter, then the fallback heuristic. -/
def recognizeThumb (text : List Char) : List (List Char) :=
  if containsTrigger text then
    let fm := filteredThumb text
    if !fm.isEmpty then fm
    else
      match fallbackCode text with
      | some code => [code]
      | none => []
  else []

/-- The codes produced from one OCR text in the video phase
(lines 266-273): trigger check, two-token pattern, false-positive
filter — no fallback heuristic. -/
def recognizeVideo (text : List Char) : List (List Char) :=
  if containsTrigger text then filteredVideo text else []

/-- A thumbnail frame descriptor `(url, timestamp)` as produced by
`extract_image_urls_from_html`. -/
abbrev Desc : Type := String × String

/-- What one thumbnail task observes of its external collaborators
(HTTP fetch, image decode, OCR), per the error taxonomy of
`download_and_process_image`. -/
inductive FetchOutcome where
  /-- HTTP 200, image decoded, OCR produced this text. -/
  | ok (text : List Char)
  /-- `response.status_code != 200` (line 48): the task returns `None`. -/
  | badStatus (code : Nat)
  /-- Any exception (network, decode, OCR): caught at lines 104-106,
  the task returns `None`. -/
  | exn
deriving DecidableEq

/-- `download_and_process_image`, lines 41-106: the scan outcome of one
thumbnail descriptor, `some (timestamp, codes)` when the frame carries at
least one recognized code, `none` otherwise (failed download, failed
decode, no trigger, no surviving match).  The saved filenames are
filesystem side effects and are not part of the outcome modelled here. -/
def downloadAndProcessImage (fetch : Desc → FetchOutcome) (d : Desc) :
    Option (String × List (List Char)) :=
  match fetch d with
  | .badStatus _ => none
  | .exn => none
  | .ok text =>
    let codes := recognizeThumb text
    if codes.isEmpty then none else some (d.2, codes)

/-- The thumbnail-phase worker pool, lines 190-202: one task per
descriptor; a task returning `None` (or raising, which the pool catches)
contributes no outcome.  `as_completed` yields results in an unspecified
order; the submission order is used here, and nothing proved below
depends on it since the outcomes are folded into a set. -/
def runPool (fetch : Desc → FetchOutcome) (descs : List Desc) :
    List (String × List (List Char)) :=
  descs.filterMap (downloadAndProcessImage fetch)

/-- Insertion into the `found_codes` set: `found_codes.add(code)` on the
duplicate-free-list representation of a Python `set` (and literally
`if code not in found_codes: found_codes.add(code)` of lines 286-287). -/
def addCode (acc : List (List Char)) (c : List Char) : List (List Char) :=
  if c ∈ acc then acc else acc ++ [c]

/-- Lines 205-208 (and 284-287): fold every code of every outcome into
the accumulator set. -/
def collectCodes (rs : List (String × List (List Char)))
    (acc : List (List Char)) : List (List Char) :=
  rs.foldl (fun a r => r.2.foldl addCode a) acc

/-- Lines 245-281, one iteration of the sequential video scan: seek,
settle, capture, OCR (summarized by the `ocr` capability), recognize;
the frame enters `video_scan_results` iff its filtered match list is
non-empty. -/
def videoFrameOutcome (ocr : Nat × String → List Char) (p : Nat × String) :
    Option (String × List (List Char)) :=
  let codes := recognizeVideo (ocr p)
  if codes.isEmpty then none else some (p.2, codes)

/-- The inputs of one `extract_attendance_codes` run, with the external
collaborators (browser, HTTP, OCR) abstracted as capabilities:
the thumbnail descriptor list parsed from the page, the per-descriptor
fetch+OCR behaviour, whether a video player element could be located
(lines 221-236), the navigation points parsed from the page, and the
OCR text of the frame captured at each navigation point. -/
structure Env where
  thumbs : List Desc
  fetch : Desc → FetchOutcome
  videoFound : Bool
  navPoints : List (Nat × String)
  videoOcr : Nat × String → List Char

/-- The one uncaught Python error the control flow can produce. -/
inductive PyErr where
  /-- A local variable read before any assignment to it executed. -/
  | unboundLocal (name : String)
deriving DecidableEq

/-- `extract_attendance_codes`, lines 136-294.

Phase 1 (lines 186-215) runs only when the thumbnail list is non-empty;
it assigns `found_codes` and returns it when non-empty.  Otherwise the
video phase: if no player element is found, line 236 returns the literal
`[]`; else the navigation points are scanned and lines 284-290 fold the
video outcomes into `found_codes` and return it — but `found_codes` is
only ever assigned inside the `if image_urls:` branch, so when the
thumbnail list was empty these lines raise `UnboundLocalError`. -/
def extractAttendanceCodes (env : Env) :
    Except PyErr (List (List Char)) :=
  let foundOpt : Option (List (List Char)) :=
    if env.thumbs.isEmpty then none
    else some (collectCodes (runPool env.fetch env.thumbs) [])
  match foundOpt with
  | some found =>
    if !found.isEmpty then .ok found
    else if !env.videoFound then .ok []
    else
      .ok (collectCodes (env.navPoints.filterMap (videoFrameOutcome env.videoOcr)) found)
  | none =>
    if !env.videoFound then .ok []
    else .error (.unboundLocal "found_codes")

/-- An uppercase alphabetic token of length at least 2, the word shape of
the code patterns. -/
def IsToken (w : List Char) : Prop := w.all isUpperAZ = true ∧ 2 ≤ w.length

/- Concrete inputs used to settle individual claims. -/

/-- C1's end-to-end scenario: zero thumbnail descriptors, a located video
element, two navigation points, the first frame OCRing to noise and the
second to a clicker-question slide carrying the code "QRST UVWX". -/
def c1Env : Env :=
  { thumbs := []
    fetch := fun _ => .exn
    videoFound := true
    navPoints := [(10, "0:10"), (20, "0:20")]
    videoOcr := fun p =>
      if p.1 == 10 then toL "zz garbled noise" else toL "clicker question\nQRST UVWX" }

/-- A text in which the same primary match occurs twice. -/
def c5CexText : List Char := toL "attendance code\nAB CD\nAB CD"

/-- A text in which the fallback phrase occurs twice: a passing code line
sits within the five lines after the first occurrence, but beyond the
second occurrence of the phrase. -/
def c4CexText : List Char :=
  toL "Insert the following attendance code\nxx\nInsert the following attendance code\nA B C D"

/-- A text whose line after the fallback phrase is letters-and-spaces in
lowercase. -/
def c4CexText2 : List Char := toL "Insert the following attendance code\nabcd efgh"

/-- A text exercising the fallback heuristic: the phrase occurs once,
followed by a line of single spaced letters (no primary-pattern match). -/
def c4WitText : List Char := toL "Insert the following attendance code\nX Y Z W"

/-- A thumbnail-phase environment whose single descriptor carries a code. -/
def c7Env : Env :=
  { thumbs := [("u1", "0:05")]
    fetch := fun _ => .ok (toL "attendance code\nLUT DESERT")
    videoFound := false
    navPoints := []
    videoOcr := fun _ => [] }

/-- Two thumbnail descriptors both carrying the same code "WXYZ". -/
def c9Env : Env :=
  { thumbs := [("u1", "0:07"), ("u2", "0:09")]
    fetch := fun _ => .ok (toL "attendance code\nWXYZ")
    videoFound := false
    navPoints := []
    videoOcr := fun _ => [] }

/-- A fetch capability that fails with an exception on the descriptor
whose URL is "bad" and succeeds elsewhere. -/
def c8Fetch : Desc → FetchOutcome :=
  fun d => if d.1 == "bad" then .exn else .ok (toL "attendance code\nCAT")

/-! ### Basic lemmas about the scanner's components -/

theorem scanF_nil (b : Bool) (fuel : Nat) (prev : Option Char) :
    scanF b fuel prev [] = [] := by
  cases fuel <;> rfl

theorem contWordsF_nil (fuel : Nat) : contWordsF fuel [] = ([], []) := by
  cases fuel <;> rfl

theorem contWordsF_single {c : Char} (h : (c == ' ') = false) (fuel : Nat) :
    contWordsF fuel [c] = ([], [c]) := by
  cases fuel with
  | zero => rfl
  | succ n => simp [contWordsF, h]

theorem codeBoundary_of_upper {c : Char} (h : isUpperAZ c = true) :
    codeBoundary c = true := by
  simp only [isUpperAZ, Bool.and_eq_true] at h
  simp [codeBoundary, h.1, h.2]

theorem upperRun_append (w rest : List Char)
    (hw : w.all isUpperAZ = true) :
    upperRun (w ++ rest) = (w ++ (upperRun rest).1, (upperRun rest).2) := by
  induction w with
  | nil => simp
  | cons c cs ih =>
    simp only [List.all_cons, Bool.and_eq_true] at hw
    simp [upperRun, hw.1, ih hw.2]

theorem upperRun_of_allUpper {w : List Char} (hw : w.all isUpperAZ = true) :
    upperRun w = (w, []) := by
  have h := upperRun_append w [] hw
  simpa [upperRun] using h

theorem upperRun_cons_of_not {c : Char} {cs : List Char}
    (h : isUpperAZ c = false) : upperRun (c :: cs) = ([], c :: cs) := by
  simp [upperRun, h]

theorem joinWords_single (w : List Char) : joinWords [w] = w := by
  simp [joinWords]

theorem joinWords_pair (w v : List Char) : joinWords [w, v] = w ++ ' ' :: v := by
  simp [joinWords]

theorem space_mem_joinWords (w v : List Char) (ws : List (List Char)) :
    ' ' ∈ joinWords (w :: v :: ws) := by
  simp [joinWords]

/-! ### Substring lemmas -/

theorem isPre_append_right (p t : List Char) : isPre p (p ++ t) = true := by
  induction p with
  | nil => rfl
  | cons a as ih => simp [isPre, ih]

theorem isPre_decomp {p l : List Char} (h : isPre p l = true) :
    ∃ t, l = p ++ t := by
  induction p generalizing l with
  | nil => exact ⟨l, rfl⟩
  | cons a as ih =>
    cases l with
    | nil => simp [isPre] at h
    | cons b bs =>
      simp only [isPre, Bool.and_eq_true, beq_iff_eq] at h
      obtain ⟨t, ht⟩ := ih h.2
      exact ⟨t, by simp [h.1, ht]⟩

theorem containsSub_append (p x y : List Char) :
    containsSub p (x ++ p ++ y) = true := by
  induction x with
  | nil =>
    cases p with
    | nil => cases y <;> simp [containsSub, isPre]
    | cons a as =>
      have h := isPre_append_right (a :: as) y
      simp only [List.nil_append]
      simp only [containsSub, Bool.or_eq_true]
      exact Or.inl h
  | cons c cs ih =>
    simp only [List.cons_append, containsSub, Bool.or_eq_true]
    exact Or.inr ih

theorem splitFirst_sound {p l pre post : List Char}
    (h : splitFirst p l = some (pre, post)) : l = pre ++ p ++ post := by
  induction l generalizing pre post with
  | nil =>
    simp only [splitFirst] at h
    split at h
    · next hp =>
      simp only [Option.some.injEq, Prod.mk.injEq] at h
      simp [List.isEmpty_iff.mp hp, ← h.1, ← h.2]
    · exact absurd h (by simp)
  | cons c cs ih =>
    simp only [splitFirst] at h
    split at h
    · next hp =>
      obtain ⟨t, ht⟩ := isPre_decomp hp
      simp only [Option.some.injEq, Prod.mk.injEq] at h
      rw [← h.1, ← h.2, ht, List.nil_append, List.drop_left]
    · next hp =>
      cases hsf : splitFirst p cs with
      | none => rw [hsf] at h; exact absurd h (by simp)
      | some pr =>
        rw [hsf] at h
        simp only [Option.some.injEq, Prod.mk.injEq] at h
        have hcs := ih (show splitFirst p cs = some (pr.1, pr.2) from by rw [hsf])
        rw [← h.1, ← h.2, hcs]
        simp

/-! ### Set-insertion lemmas -/

theorem addCode_nodup {acc : List (List Char)} {c : List Char}
    (h : acc.Nodup) : (addCode acc c).Nodup := by
  unfold addCode
  split
  · exact h
  · next hc => simp [List.nodup_append, h, hc]

theorem foldl_addCode_nodup (codes : List (List Char)) :
    ∀ acc, acc.Nodup → (codes.foldl addCode acc).Nodup := by
  induction codes with
  | nil => exact fun _ h => h
  | cons c cs ih => exact fun acc h => ih _ (addCode_nodup h)

theorem collectCodes_nodup (rs : List (String × List (List Char))) :
    ∀ acc, acc.Nodup → (collectCodes rs acc).Nodup := by
  induction rs with
  | nil => exact fun _ h => h
  | cons r rst ih =>
    exact fun acc h => ih _ (foldl_addCode_nodup _ _ h)

theorem mem_addCode {acc : List (List Char)} {c x : List Char} :
    x ∈ addCode acc c ↔ x ∈ acc ∨ x = c := by
  unfold addCode
  split
  · next hc =>
    constructor
    · exact Or.inl
    · rintro (h | rfl)
      · exact h
      · exact hc
  · simp

theorem mem_foldl_addCode (codes : List (List Char)) :
    ∀ acc x, x ∈ codes.foldl addCode acc ↔ x ∈ acc ∨ x ∈ codes := by
  induction codes with
  | nil => simp
  | cons c cs ih =>
    intro acc x
    simp only [List.foldl_cons, ih, mem_addCode, List.mem_cons]
    tauto

/-! ### Trigger lemmas -/

theorem lowerStr_append (x y : List Char) :
    lowerStr (x ++ y) = lowerStr x ++ lowerStr y := by
  simp [lowerStr]

/-- Any text containing the fallback phrase contains the trigger
"attendance code" case-insensitively. -/
theorem containsTrigger_of_prompt (pre post : List Char) :
    containsTrigger (pre ++ promptPhrase ++ post) = true := by
  have hsplit : lowerStr (pre ++ promptPhrase ++ post) =
      (lowerStr pre ++ toL "insert the following ") ++ toL "attendance code" ++
        lowerStr post := by
    rw [lowerStr_append, lowerStr_append]
    rw [show lowerStr promptPhrase = toL "insert the following " ++ toL "attendance code"
      from by decide]
    simp
  unfold containsTrigger
  rw [hsplit, containsSub_append]
  rfl

/-! ### Scanner lemmas -/

/-- One scan step at a position where no match can start: the scan
advances one character. -/
theorem scanF_cons_noStart (b : Bool) (fuel : Nat) (prev : Option Char)
    (c : Char) (cs : List Char)
    (h : (prevOK prev && decide (2 ≤ (upperRun (c :: cs)).1.length)) = false) :
    scanF b (fuel + 1) prev (c :: cs) = scanF b fuel (some c) cs := by
  simp only [scanF]
  simp [h]

/-- Scanning an uppercase region whose preceding character is in the
boundary class produces nothing from that region: every interior
position fails the lookbehind. -/
theorem scanF_allUpper_badPrev (b : Bool) (w : List Char) :
    ∀ (p : Char) (fuel : Nat) (tail : List Char), codeBoundary p = true →
      w.all isUpperAZ = true →
      scanF b (w.length + fuel) (some p) (w ++ tail) =
        scanF b fuel (some (w.getLastD p)) tail := by
  induction w with
  | nil => intro p fuel tail _ _; simp [List.getLastD]
  | cons c cs ih =>
    intro p fuel tail hp hw
    simp only [List.all_cons, Bool.and_eq_true] at hw
    have hstep : scanF b ((cs.length + fuel) + 1) (some p) (c :: (cs ++ tail)) =
        scanF b (cs.length + fuel) (some c) (cs ++ tail) := by
      apply scanF_cons_noStart
      simp [prevOK, hp]
    have hlen : (c :: cs).length + fuel = (cs.length + fuel) + 1 := by
      simp [List.length_cons]; omega
    rw [List.cons_append, hlen, hstep,
      ih c fuel tail (codeBoundary_of_upper hw.1) hw.2]
    rw [List.getLastD_cons]

/-- A lone uppercase token is a complete match of the thumbnail-phase
(starred) pattern. -/
theorem scanF_token_star (w : List Char) (prev : Option Char) (fuel : Nat)
    (hprev : prevOK prev = true) (hw : w.all isUpperAZ = true)
    (hlen : 2 ≤ w.length) :
    scanF false (fuel + 1) prev w = [w] := by
  cases w with
  | nil => simp at hlen
  | cons c w' =>
    cases w' with
    | nil => simp at hlen
    | cons d cs =>
      simp only [scanF, upperRun_of_allUpper hw]
      simp [hprev, contWordsF, lookOK, joinWords_single, scanF_nil]

/-- A lone uppercase token is rejected by the video-phase (plus)
pattern: the continuation group needs at least one iteration. -/
theorem scanF_token_plus (w : List Char) (prev : Option Char) (fuel : Nat)
    (hprev : prevOK prev = true) (hw : w.all isUpperAZ = true)
    (hlen : 2 ≤ w.length) :
    scanF true (w.length + fuel) prev w = [] := by
  cases w with
  | nil => simp at hlen
  | cons c w' =>
    cases w' with
    | nil => simp at hlen
    | cons d cs =>
      have hw' : isUpperAZ c = true ∧ (d :: cs).all isUpperAZ = true := by
        simpa [List.all_cons, Bool.and_eq_true] using hw
      have hlen2 : (c :: d :: cs).length + fuel = ((d :: cs).length + fuel) + 1 := by
        simp [List.length_cons]; omega
      rw [hlen2]
      have hbody : scanF true (((d :: cs).length + fuel) + 1) prev (c :: d :: cs) =
          scanF true ((d :: cs).length + fuel) (some c) (d :: cs) := by
        simp only [scanF, upperRun_of_allUpper hw]
        simp [hprev, contWordsF, lookOK, minWords]
      rw [hbody]
      have h := scanF_allUpper_badPrev true (d :: cs) c fuel []
        (codeBoundary_of_upper hw'.1) hw'.2
      simpa [scanF_nil] using h

/-- Two space-separated uppercase tokens are a complete match of both
patterns. -/
theorem scanF_two_tokens (b : Bool) (w1 w2 : List Char) (prev : Option Char)
    (fuel : Nat) (hprev : prevOK prev = true)
    (h1 : w1.all isUpperAZ = true) (hl1 : 2 ≤ w1.length)
    (h2 : w2.all isUpperAZ = true) (hl2 : 2 ≤ w2.length) :
    scanF b (fuel + 1) prev (w1 ++ ' ' :: w2) = [w1 ++ ' ' :: w2] := by
  cases w1 with
  | nil => simp at hl1
  | cons c w' =>
    cases w' with
    | nil => simp at hl1
    | cons d cs =>
      have hur : upperRun ((c :: d :: cs) ++ ' ' :: w2) = (c :: d :: cs, ' ' :: w2) := by
        rw [upperRun_append _ _ h1, upperRun_cons_of_not (by decide)]
        simp
      have hcw : contWordsF (' ' :: w2).length (' ' :: w2) = ([w2], []) := by
        simp only [List.length_cons, contWordsF]
        simp [upperRun_of_allUpper h2, hl2, contWordsF_nil]
      rw [show (c :: d :: cs) ++ ' ' :: w2 = c :: (d :: cs ++ ' ' :: w2) from rfl]
      simp only [scanF]
      rw [show upperRun (c :: (d :: cs ++ ' ' :: w2)) = (c :: d :: cs, ' ' :: w2) from hur]
      simp only [List.length_cons] at hcw
      simp [hprev, hcw, lookOK, joinWords_pair, scanF_nil]

/-- Every match of the video-phase (plus) pattern consists of at least
two tokens: it contains a space. -/
theorem space_mem_scanF_plus :
    ∀ (fuel : Nat) (prev : Option Char) (l m : List Char),
      m ∈ scanF true fuel prev l → ' ' ∈ m := by
  intro fuel
  induction fuel with
  | zero => intro prev l m h; simp [scanF] at h
  | succ n ih =>
    intro prev l m h
    cases l with
    | nil => simp [scanF] at h
    | cons c cs =>
      simp only [scanF, minWords, Bool.not_true, Bool.false_or,
        eq_self_iff_true, if_true] at h
      split at h
      · split at h
        · next hc2 =>
          simp only [Bool.and_eq_true, Bool.not_eq_true'] at hc2
          rcases List.mem_cons.mp h with hm | hm
          · cases hq : (contWordsF (upperRun (c :: cs)).2.length
                (upperRun (c :: cs)).2).1 with
            | nil => rw [hq] at hc2; simp at hc2
            | cons v vs =>
              rw [hq] at hm
              rw [hm]
              exact space_mem_joinWords _ v vs
          · exact ih _ _ _ hm
        · split at h
          · next hc3 =>
            rcases List.mem_cons.mp h with hm | hm
            · have hdlen : 1 ≤ (contWordsF (upperRun (c :: cs)).2.length
                  (upperRun (c :: cs)).2).1.dropLast.length := by
                rw [List.length_dropLast]
                omega
              cases hdl : (contWordsF (upperRun (c :: cs)).2.length
                  (upperRun (c :: cs)).2).1.dropLast with
              | nil => rw [hdl] at hdlen; simp at hdlen
              | cons v vs =>
                rw [hdl] at hm
                rw [hm]
                exact space_mem_joinWords _ v vs
            · exact ih _ _ _ hm
          · exact ih _ _ _ h
      · exact ih _ _ _ h

/-- A lone uppercase token directly followed by a boundary-class
character that is not uppercase: the final lookahead fails, within-word
backtracking cannot help, and no match is produced. -/
theorem scanF_token_badLook (b : Bool) (w : List Char) (c : Char)
    (prev : Option Char) (fuel : Nat) (hprev : prevOK prev = true)
    (hw : w.all isUpperAZ = true) (hlen : 2 ≤ w.length)
    (hc : codeBoundary c = true) (hu : isUpperAZ c = false) :
    scanF b ((w.length + 1) + fuel) prev (w ++ [c]) = [] := by
  obtain ⟨a, d, as, rfl⟩ : ∃ a d as, w = a :: d :: as := by
    cases w with
    | nil => simp at hlen
    | cons a w' =>
      cases w' with
      | nil => simp at hlen
      | cons d as => exact ⟨a, d, as, rfl⟩
  have hw' : isUpperAZ a = true ∧ (d :: as).all isUpperAZ = true := by
    simpa [List.all_cons, Bool.and_eq_true] using hw
  have hcs : (c == ' ') = false := by
    cases hsp : c == ' ' with
    | false => rfl
    | true =>
      have hce : c = ' ' := by simpa using hsp
      rw [hce] at hc
      exact absurd hc (by decide)
  have hur : upperRun ((a :: d :: as) ++ [c]) = (a :: d :: as, [c]) := by
    rw [upperRun_append _ _ hw, upperRun_cons_of_not hu]
    simp
  have hf1 : ((a :: d :: as).length + 1) + fuel = ((a :: d :: as).length + fuel) + 1 := by
    omega
  have hstep : scanF b ((a :: d :: as).length + fuel) (some a) (d :: as ++ [c]) = [] := by
    have hdec : (a :: d :: as).length + fuel = (d :: as).length + (fuel + 1) := by
      simp [List.length_cons]; omega
    rw [hdec, scanF_allUpper_badPrev b (d :: as) a (fuel + 1) [c]
      (codeBoundary_of_upper hw'.1) hw'.2]
    rw [scanF_cons_noStart b fuel _ c []
      (by rw [show upperRun [c] = ([], [c]) from upperRun_cons_of_not hu]; simp)]
    exact scanF_nil b fuel (some c)
  rw [hf1, show (a :: d :: as) ++ [c] = a :: (d :: as ++ [c]) from rfl]
  simp only [scanF]
  rw [show upperRun (a :: (d :: as ++ [c])) = (a :: d :: as, [c]) from hur]
  have hmin0 : ¬ minWords b = 0 := by cases b <;> simp [minWords]
  have hstep2 : scanF b (as.length + 1 + 1 + fuel) (some a) (d :: (as ++ [c])) = [] := by
    simpa using hstep
  simp [contWordsF_single hcs, lookOK, hc, hprev, hmin0, hstep2]

/-! ### Claim theorems -/

/-- C1 (code_bug): with zero thumbnail descriptors, a located video
element, and two navigation points whose second frame OCRs to a
clicker-question slide carrying "QRST UVWX", `extract_attendance_codes`
does not return `{"QRST UVWX"}`: lines 284-290 read the local
`found_codes`, which is only assigned inside the `if image_urls:` branch,
so the call raises `UnboundLocalError`.  The second conjunct shows the
video scan itself does discover exactly the code the claim expects. -/
theorem c1_video_scenario_crashes :
    extractAttendanceCodes c1Env = .error (.unboundLocal "found_codes") ∧
    c1Env.navPoints.filterMap (videoFrameOutcome c1Env.videoOcr) =
      [("0:20", [toL "QRST UVWX"])] := by
  constructor
  · rfl
  · decide

/-- C2: asymmetry of the two code patterns.  A lone uppercase token of
length ≥ 2 is accepted by the thumbnail-phase pattern and rejected by
the video-phase pattern; two space-separated tokens are accepted by
both; and in both phases a match cannot be bordered by a character of
the class `[a-zA-Z0-9:/.]` — prepending or appending such a character to
a lone token text never yields that token as a match. -/
theorem c2_pattern_asymmetry :
    (∀ w : List Char, IsToken w →
        findMatches false w = [w] ∧ findMatches true w = []) ∧
    (∀ (b : Bool) (w1 w2 : List Char), IsToken w1 → IsToken w2 →
        findMatches b (w1 ++ ' ' :: w2) = [w1 ++ ' ' :: w2]) ∧
    (∀ (b : Bool) (w : List Char) (c : Char), IsToken w → codeBoundary c = true →
        w ∉ findMatches b (c :: w) ∧ w ∉ findMatches b (w ++ [c])) := by
  refine ⟨?_, ?_, ?_⟩
  · intro w hw
    obtain ⟨hall, hlen⟩ := hw
    constructor
    · obtain ⟨n, hn⟩ : ∃ n, w.length = n + 1 := ⟨w.length - 1, by omega⟩
      rw [findMatches, hn]
      exact scanF_token_star w none n rfl hall hlen
    · rw [findMatches, show w.length = w.length + 0 from rfl]
      exact scanF_token_plus w none 0 rfl hall hlen
  · intro b w1 w2 h1 h2
    obtain ⟨n, hn⟩ : ∃ n, (w1 ++ ' ' :: w2).length = n + 1 :=
      ⟨(w1 ++ ' ' :: w2).length - 1, by simp; omega⟩
    rw [findMatches, hn]
    exact scanF_two_tokens b w1 w2 none n rfl h1.1 h1.2 h2.1 h2.2
  · intro b w c hw hc
    obtain ⟨hall, hlen⟩ := hw
    by_cases hu : isUpperAZ c = true
    · have hall1 : (c :: w).all isUpperAZ = true := by
        simp [List.all_cons, hu, hall]
      have hlen1 : 2 ≤ (c :: w).length := by
        simp only [List.length_cons]; omega
      have hall2 : (w ++ [c]).all isUpperAZ = true := by
        simp [List.all_append, hall, hu]
      have hlen2 : 2 ≤ (w ++ [c]).length := by
        simp only [List.length_append, List.length_cons]; omega
      constructor
      · intro hmem
        cases b with
        | false =>
          obtain ⟨n, hn⟩ : ∃ n, (c :: w).length = n + 1 := ⟨w.length, by simp⟩
          rw [findMatches, hn, scanF_token_star _ none n rfl hall1 hlen1] at hmem
          have he := List.mem_singleton.mp hmem
          have hL := congrArg List.length he
          simp only [List.length_cons] at hL
          omega
        | true =>
          rw [findMatches, show (c :: w).length = (c :: w).length + 0 from rfl,
            scanF_token_plus _ none 0 rfl hall1 hlen1] at hmem
          simp at hmem
      · intro hmem
        cases b with
        | false =>
          obtain ⟨n, hn⟩ : ∃ n, (w ++ [c]).length = n + 1 := ⟨w.length, by simp⟩
          rw [findMatches, hn, scanF_token_star _ none n rfl hall2 hlen2] at hmem
          have he := List.mem_singleton.mp hmem
          have hL := congrArg List.length he
          simp only [List.length_append, List.length_cons, List.length_nil] at hL
          omega
        | true =>
          rw [findMatches, show (w ++ [c]).length = (w ++ [c]).length + 0 from rfl,
            scanF_token_plus _ none 0 rfl hall2 hlen2] at hmem
          simp at hmem
    · have hu' : isUpperAZ c = false := by simpa using hu
      constructor
      · intro hmem
        have hz : findMatches b (c :: w) = [] := by
          rw [findMatches, show (c :: w).length = w.length + 1 from rfl]
          rw [scanF_cons_noStart b w.length none c w
            (by simp [prevOK, upperRun_cons_of_not hu'])]
          have h4 := scanF_allUpper_badPrev b w c 0 [] hc hall
          simp only [List.append_nil, Nat.add_zero] at h4
          rw [h4, scanF_nil]
        rw [hz] at hmem
        simp at hmem
      · intro hmem
        have hz : findMatches b (w ++ [c]) = [] := by
          rw [findMatches,
            show (w ++ [c]).length = (w.length + 1) + 0 from by simp]
          exact scanF_token_badLook b w c none 0 rfl hall hlen hc hu'
        rw [hz] at hmem
        simp at hmem

/-- C3: for every text containing a trigger whose primary-pattern
matches exist and none of which contains an exclusion substring, the
thumbnail-phase recognizer returns exactly the filtered match list,
which is the full match list. -/
theorem c3_filtered_matches (text : List Char)
    (h1 : containsTrigger text = true)
    (h2 : findMatches false text ≠ [])
    (h3 : ∀ m ∈ findMatches false text, isFalsePositive m = false) :
    recognizeThumb text = filteredThumb text ∧
    filteredThumb text = findMatches false text := by
  have hf : filteredThumb text = findMatches false text := by
    unfold filteredThumb
    apply List.filter_eq_self.mpr
    intro a ha
    simp [h3 a ha]
  refine ⟨?_, hf⟩
  have hE : (filteredThumb text).isEmpty = false := by
    rw [hf]
    cases hE2 : (findMatches false text).isEmpty with
    | false => rfl
    | true => exact absurd (List.isEmpty_iff.mp hE2) h2
  simp [recognizeThumb, h1, hE]

/-- C3 witness: a concrete trigger text with one clean two-token match. -/
theorem c3_witness :
    recognizeThumb (toL "attendance code\nLUT DESERT") =
      filteredThumb (toL "attendance code\nLUT DESERT") :=
  (c3_filtered_matches _ (by decide) (by decide) (by decide)).1

/-- C4 counterexample.  First conjunct: in `c4CexText` the fallback
phrase occurs twice; the passing line "A B C D" lies within the five
lines following the first occurrence (as the claim reads the text), yet
the recognizer — which inspects only `text.split(phrase)[1]`, the
segment before the second occurrence — produces no code.  Second
conjunct: in `c4CexText2` the line after the phrase is
letters-and-spaces with trimmed length > 3 in the claim's literal
reading, but lowercase, and the recognizer produces no code. -/
theorem c4_counterexample :
    (filteredThumb c4CexText = [] ∧
     splitFirst promptPhrase c4CexText =
       some ([], toL "\nxx\nInsert the following attendance code\nA B C D") ∧
     (((splitLines (toL "\nxx\nInsert the following attendance code\nA B C D")).take 5).find?
        fallbackLineOK) = some (toL "A B C D") ∧
     recognizeThumb c4CexText = []) ∧
    (filteredThumb c4CexText2 = [] ∧
     splitFirst promptPhrase c4CexText2 = some ([], toL "\nabcd efgh") ∧
     (stripChars (toL "abcd efgh") ≠ [] ∧
       (stripChars (toL "abcd efgh")).all (fun c => c.isAlpha || isSpaceChar c) = true ∧
       3 < (stripChars (toL "abcd efgh")).length) ∧
     recognizeThumb c4CexText2 = []) := by
  refine ⟨⟨by decide, by decide, by decide, by decide⟩,
    ⟨by decide, by decide, ⟨by decide, by decide, by decide⟩, by decide⟩⟩

/-- C4 (amended): when the primary pattern plus filter yields nothing
and the fallback phrase occurs in the text, the recognizer inspects the
first five lines of the segment between the first occurrence of the
phrase and its next occurrence (to the end of the text when unique),
and returns the trimmed first such line made of uppercase letters and
whitespace with trimmed length > 3, or nothing. -/
theorem c4_fallback_characterization (text pre post : List Char)
    (hs : splitFirst promptPhrase text = some (pre, post))
    (hf : filteredThumb text = []) :
    recognizeThumb text =
      match (((splitLines
          (match splitFirst promptPhrase post with
           | some pr2 => pr2.1
           | none => post)).take 5).find? fallbackLineOK) with
      | some line => [stripChars line]
      | none => [] := by
  have htext : text = pre ++ promptPhrase ++ post := splitFirst_sound hs
  have htr : containsTrigger text = true := by
    rw [htext]; exact containsTrigger_of_prompt pre post
  simp only [recognizeThumb, htr, if_true, hf, List.isEmpty_nil, Bool.not_true,
    Bool.false_eq_true, if_false, fallbackCode, hs]
  cases hfind : ((splitLines (match splitFirst promptPhrase post with
      | some pr2 => pr2.1 | none => post)).take 5).find? fallbackLineOK with
  | none => simp [hfind]
  | some line => simp [hfind]

/-- C4 witness: phrase occurring once, followed by a line of spaced
single letters (no primary match), accepted by the fallback. -/
theorem c4_fallback_witness :
    recognizeThumb c4WitText = [toL "X Y Z W"] := by
  have h := c4_fallback_characterization c4WitText [] (toL "\nX Y Z W")
    (by decide) (by decide)
  rw [h]
  decide

/-- C5 counterexample: one recognition pass over a text containing the
same code twice returns the match list with the duplicate preserved. -/
theorem c5_counterexample :
    recognizeThumb c5CexText = [toL "AB CD", toL "AB CD"] ∧
    ¬ (recognizeThumb c5CexText).Nodup := by
  exact ⟨by decide, by decide⟩

/-- C5 (amended): the per-text recognition list may contain duplicates;
deduplication happens when a frame's codes are folded into the
accumulator set, whose content is exactly the set of codes of the pass,
each at most once. -/
theorem c5_dedup_at_aggregation (text : List Char) (label : String) :
    (collectCodes [(label, recognizeThumb text)] []).Nodup ∧
    ∀ code, code ∈ collectCodes [(label, recognizeThumb text)] [] ↔
      code ∈ recognizeThumb text := by
  constructor
  · exact collectCodes_nodup _ _ List.nodup_nil
  · intro code
    unfold collectCodes
    simp only [List.foldl_cons, List.foldl_nil]
    rw [mem_foldl_addCode]
    simp

/-- C6: an OCR text containing neither trigger phrase yields no codes in
either phase, as a normal (non-error) no-outcome. -/
theorem c6_no_trigger_no_codes (text : List Char)
    (h : containsTrigger text = false) :
    recognizeThumb text = [] ∧ recognizeVideo text = [] ∧
    (∀ (fetch : Desc → FetchOutcome) (d : Desc), fetch d = .ok text →
      downloadAndProcessImage fetch d = none) ∧
    (∀ (ocr : Nat × String → List Char) (p : Nat × String), ocr p = text →
      videoFrameOutcome ocr p = none) := by
  have h1 : recognizeThumb text = [] := by simp [recognizeThumb, h]
  have h2 : recognizeVideo text = [] := by simp [recognizeVideo, h]
  refine ⟨h1, h2, ?_, ?_⟩
  · intro fetch d hd
    simp [downloadAndProcessImage, hd, h1]
  · intro ocr p hp
    simp [videoFrameOutcome, hp, h2]

/-- C6 witness: garbled OCR noise yields no codes in either phase. -/
theorem c6_witness :
    containsTrigger (toL "zq##@@ garbled 123") = false ∧
    recognizeThumb (toL "zq##@@ garbled 123") = [] ∧
    recognizeVideo (toL "zq##@@ garbled 123") = [] :=
  ⟨by decide, (c6_no_trigger_no_codes _ (by decide)).1,
    (c6_no_trigger_no_codes _ (by decide)).2.1⟩

/-- C7: when the thumbnail phase accumulates at least one code, the
controller returns that set at once; the result is the same for every
choice of the video-phase inputs, so the video phase is never entered. -/
theorem c7_thumbnail_short_circuit (env : Env)
    (h1 : env.thumbs ≠ [])
    (h2 : collectCodes (runPool env.fetch env.thumbs) [] ≠ []) :
    ∀ (vf : Bool) (np : List (Nat × String)) (vo : Nat × String → List Char),
      extractAttendanceCodes
          { env with videoFound := vf, navPoints := np, videoOcr := vo } =
        .ok (collectCodes (runPool env.fetch env.thumbs) []) := by
  intro vf np vo
  have hE : env.thumbs.isEmpty = false := by
    cases he : env.thumbs.isEmpty with
    | false => rfl
    | true => exact absurd (List.isEmpty_iff.mp he) h1
  have hF : (collectCodes (runPool env.fetch env.thumbs) []).isEmpty = false := by
    cases he : (collectCodes (runPool env.fetch env.thumbs) []).isEmpty with
    | false => rfl
    | true => exact absurd (List.isEmpty_iff.mp he) h2
  simp [extractAttendanceCodes, hE, hF]

/-- C7 witness: a code-bearing thumbnail environment returns its code
even with a located video player and a code-bearing navigation point. -/
theorem c7_witness :
    extractAttendanceCodes
        { c7Env with
            videoFound := true
            navPoints := [(3, "0:03")]
            videoOcr := fun _ => toL "clicker question\nAB CD" } =
      .ok [toL "LUT DESERT"] := by
  have h := c7_thumbnail_short_circuit c7Env (by decide) (by decide)
    true [(3, "0:03")] (fun _ => toL "clicker question\nAB CD")
  rw [h, show collectCodes (runPool c7Env.fetch c7Env.thumbs) [] = [toL "LUT DESERT"]
    from by decide]

/-- C8: a task whose fetch raises is caught and contributes no outcome;
the pool's outcomes are exactly those of the remaining descriptors, and
aggregation is unchanged. -/
theorem c8_failure_isolation (fetch : Desc → FetchOutcome)
    (l1 l2 : List Desc) (d : Desc) (hd : fetch d = .exn) :
    runPool fetch (l1 ++ d :: l2) = runPool fetch l1 ++ runPool fetch l2 ∧
    collectCodes (runPool fetch (l1 ++ d :: l2)) [] =
      collectCodes (runPool fetch l1 ++ runPool fetch l2) [] := by
  have h1 : downloadAndProcessImage fetch d = none := by
    unfold downloadAndProcessImage
    rw [hd]
  have h2 : runPool fetch (l1 ++ d :: l2) = runPool fetch l1 ++ runPool fetch l2 := by
    unfold runPool
    rw [List.filterMap_append]
    congr 1
    simp [List.filterMap_cons, h1]
  exact ⟨h2, by rw [h2]⟩

/-- C8 witness: a three-descriptor batch whose middle fetch raises. -/
theorem c8_witness :
    runPool c8Fetch ([("a", "0:01")] ++ ("bad", "0:02") :: [("c", "0:03")]) =
      runPool c8Fetch [("a", "0:01")] ++ runPool c8Fetch [("c", "0:03")] :=
  (c8_failure_isolation c8Fetch _ _ _ (by decide)).1

/-- C9: whenever `extract_attendance_codes` returns normally, the
returned code list contains each code string at most once. -/
theorem c9_result_nodup (env : Env) (r : List (List Char))
    (h : extractAttendanceCodes env = .ok r) : r.Nodup := by
  unfold extractAttendanceCodes at h
  cases ht : env.thumbs.isEmpty with
  | true =>
    rw [ht] at h
    simp only [if_true] at h
    cases hv : env.videoFound with
    | true => rw [hv] at h; simp at h
    | false =>
      rw [hv] at h
      simp at h
      subst h
      exact List.nodup_nil
  | false =>
    rw [ht] at h
    simp only [Bool.false_eq_true, if_false] at h
    cases hf : (collectCodes (runPool env.fetch env.thumbs) []).isEmpty with
    | false =>
      rw [hf] at h
      simp at h
      rw [← h]
      exact collectCodes_nodup _ _ List.nodup_nil
    | true =>
      rw [hf] at h
      simp at h
      cases hv : env.videoFound with
      | false =>
        rw [hv] at h
        simp at h
        subst h
        exact List.nodup_nil
      | true =>
        rw [hv] at h
        simp at h
        rw [← h]
        exact collectCodes_nodup _ _ (collectCodes_nodup _ _ List.nodup_nil)

/-- C9 witness: two thumbnails carrying the same code produce it once. -/
theorem c9_witness : ([toL "WXYZ"] : List (List Char)).Nodup :=
  c9_result_nodup c9Env [toL "WXYZ"] (by rfl)

/-- C10: the video phase never applies the fallback heuristic: a frame
whose OCR text contains a trigger and a fallback-acceptable code line
but no two-token primary match yields no codes in the video phase,
while the thumbnail-phase recognizer on the same text returns the
fallback code. -/
theorem c10_video_no_fallback (text code : List Char)
    (htr : containsTrigger text = true)
    (hfb : fallbackCode text = some code)
    (hnm : findMatches true text = []) :
    recognizeVideo text = [] ∧
    (∀ (ocr : Nat × String → List Char) (p : Nat × String), ocr p = text →
      videoFrameOutcome ocr p = none) ∧
    (filteredThumb text = [] → recognizeThumb text = [code]) := by
  have hv : recognizeVideo text = [] := by
    simp [recognizeVideo, htr, filteredVideo, hnm]
  refine ⟨hv, ?_, ?_⟩
  · intro ocr p hp
    simp [videoFrameOutcome, hp, hv]
  · intro hft
    simp [recognizeThumb, htr, hft, hfb]

/-- C10 witness: a fallback-style slide yields a code in the thumbnail
phase and nothing in the video phase. -/
theorem c10_witness :
    recognizeVideo (toL "Insert the following attendance code\nA B C D") = [] ∧
    recognizeThumb (toL "Insert the following attendance code\nA B C D") =
      [toL "A B C D"] := by
  have h := c10_video_no_fallback
    (toL "Insert the following attendance code\nA B C D")
    (toL "A B C D") (by decide) (by decide) (by decide)
  exact ⟨h.1, h.2.2 (by decide)⟩

/-- C2 witness: concrete instances of the pattern asymmetry. -/
theorem c2_witness :
    findMatches false (toL "CAT") = [toL "CAT"] ∧
    findMatches true (toL "CAT") = [] ∧
    findMatches true (toL "LUT DESERT") = [toL "LUT DESERT"] ∧
    toL "CAT" ∉ findMatches false ('x' :: toL "CAT") := by
  refine ⟨(c2_pattern_asymmetry.1 (toL "CAT") ⟨by decide, by decide⟩).1,
    (c2_pattern_asymmetry.1 (toL "CAT") ⟨by decide, by decide⟩).2, ?_, ?_⟩
  · rw [show toL "LUT DESERT" = toL "LUT" ++ ' ' :: toL "DESERT" from by decide]
    exact c2_pattern_asymmetry.2.1 true (toL "LUT") (toL "DESERT")
      ⟨by decide, by decide⟩ ⟨by decide, by decide⟩
  · exact (c2_pattern_asymmetry.2.2 false (toL "CAT") 'x'
      ⟨by decide, by decide⟩ (by decide)).1

end ClickerScrape
